import Mathlib

/-!
Verification of the catastrofe repository (XML splitter and CSV exporter for
Spanish cadastral data) against its natural-language specification.

The development shallowly embeds the Python sources:
  - an `Element` tree mirroring `xml.etree.ElementTree.Element` (tag, ordered
    attribute list, optional text, ordered children, optional tail);
  - `XMLSplitter.estimate_element_size`, `XMLSplitter.create_base_structure`
    and `XMLSplitter.split` from src/catastrofe/xml_splitter.py;
  - `CatastroCSVExporter.get_text`, `CatastroCSVExporter.extract_bie_data`,
    `CatastroCSVExporter.process_xml`, `CatastroCSVExporter.extract_zip` and
    `CatastroCSVExporter.export` from src/catastrofe/csv_exporter.py.
Tag names are treated as opaque strings (the spec's stated invariant), so the
serializer writes tags verbatim and does not model ElementTree's namespace
prefix rewriting.
-/

/-- Mirror of `xml.etree.ElementTree.Element`: tag name, attribute mapping in
insertion order, optional text, ordered child list, optional tail text. -/
inductive Element : Type where
  | mk (tag : String) (attrib : List (String × String)) (text : Option String)
       (children : List Element) (tail : Option String)

def Element.tag : Element → String
  | .mk t _ _ _ _ => t

def Element.attrib : Element → List (String × String)
  | .mk _ a _ _ _ => a

def Element.text : Element → Option String
  | .mk _ _ x _ _ => x

def Element.children : Element → List Element
  | .mk _ _ _ cs _ => cs

def Element.tail : Element → Option String
  | .mk _ _ _ _ tl => tl

/-- Python `element.append(child)`: the child list grows at the end. -/
def Element.append (e : Element) (c : Element) : Element :=
  match e with
  | .mk t a x cs tl => .mk t a x (cs ++ [c]) tl

mutual

def Element.beq : Element → Element → Bool
  | .mk t a x cs tl, .mk t' a' x' cs' tl' =>
      t == t' && a == a' && x == x' && Element.beqList cs cs' && tl == tl'

def Element.beqList : List Element → List Element → Bool
  | [], [] => true
  | c :: cs, c' :: cs' => Element.beq c c' && Element.beqList cs cs'
  | _, _ => false

end

mutual

theorem Element.beq_iff : ∀ a b : Element, Element.beq a b = true ↔ a = b
  | .mk t a x cs tl, .mk t' a' x' cs' tl' => by
    simp only [Element.beq, Bool.and_eq_true, beq_iff_eq, Element.mk.injEq]
    have h := Element.beqList_iff cs cs'
    tauto

theorem Element.beqList_iff : ∀ as bs : List Element, Element.beqList as bs = true ↔ as = bs
  | [], [] => by simp [Element.beqList]
  | [], _ :: _ => by simp [Element.beqList]
  | _ :: _, [] => by simp [Element.beqList]
  | c :: cs, c' :: cs' => by
    simp only [Element.beqList, Bool.and_eq_true, List.cons.injEq]
    have h1 := Element.beq_iff c c'
    have h2 := Element.beqList_iff cs cs'
    tauto

end

instance : DecidableEq Element := fun a b =>
  decidable_of_iff (Element.beq a b = true) (Element.beq_iff a b)

mutual

/-- Subtree of one element in document order: the element itself followed by
its descendants. -/
def descElem : Element → List Element
  | .mk t a x cs tl => .mk t a x cs tl :: descAll cs

/-- Document-order list of all elements of a forest together with their
descendants.  `descAll e.children` is the list produced by Python's
`element.iter()` minus the element itself (equally, by `element.findall('.//*')`). -/
def descAll : List Element → List Element
  | [] => []
  | c :: rest => descElem c ++ descAll rest

end

/-- Python `list(element.iter())`: the element itself followed by all of its
descendants in document order. -/
def Element.iterAll (e : Element) : List Element :=
  e :: descAll e.children

mutual

/-- Independent node count of a subtree (the node itself plus all descendants),
written as plain structural recursion; used to state the estimator contract. -/
def countNodes : Element → Nat
  | .mk _ _ _ cs _ => 1 + countNodesList cs

/-- Node count of a forest. -/
def countNodesList : List Element → Nat
  | [] => 0
  | c :: cs => countNodes c + countNodesList cs

end

/-- UTF-8 byte length of a string (the length of Python's encoded bytes),
summed character by character. -/
def utf8Length (s : String) : Nat :=
  (s.toList.map Char.utf8Size).sum

/-- Python `str.lower()`, character by character. -/
def strToLower (s : String) : String :=
  String.mk (s.toList.map Char.toLower)

/-- Python `str.endswith(t)`. -/
def strEndsWith (s t : String) : Bool :=
  s.toList.reverse.take t.toList.length == t.toList.reverse

/-- Python `str.strip()`: surrounding whitespace removed. -/
def strTrim (s : String) : String :=
  String.mk (((s.toList.dropWhile Char.isWhitespace).reverse.dropWhile
    Char.isWhitespace).reverse)

/-- Python truthiness of `element.text` / `element.tail`: `None` and the empty
string are falsy. -/
def strTruthy : Option String → Bool
  | none => false
  | some s => s ≠ ""

/-- Mirror of `xml.etree.ElementTree._escape_cdata`: escapes `&`, `<`, `>` in
text content. -/
def escape_cdata (s : String) : String :=
  String.join (s.toList.map fun c =>
    if c = '&' then "&amp;"
    else if c = '<' then "&lt;"
    else if c = '>' then "&gt;"
    else String.singleton c)

/-- Mirror of `xml.etree.ElementTree._escape_attrib`: escapes `&`, `<`, `>`,
double quote and whitespace control characters in attribute values. -/
def escape_attrib (s : String) : String :=
  String.join (s.toList.map fun c =>
    if c = '&' then "&amp;"
    else if c = '<' then "&lt;"
    else if c = '>' then "&gt;"
    else if c = '"' then "&quot;"
    else if c = '\r' then "&#13;"
    else if c = '\n' then "&#10;"
    else if c = '\t' then "&#09;"
    else String.singleton c)

/-- Serialization of one attribute list: ` key="value"` for each pair, in
insertion order. -/
def serializeAttribs (a : List (String × String)) : String :=
  String.join (a.map fun kv => " " ++ kv.1 ++ "=\"" ++ escape_attrib kv.2 ++ "\"")

def optText (x : Option String) : String :=
  match x with
  | none => ""
  | some s => s

mutual

/-- Mirror of `xml.etree.ElementTree._serialize_xml` with the default
`short_empty_elements=True`: start tag with attributes; if the element has
truthy text or at least one child, the escaped text, the serialized children
and an end tag, else a self-closing ` />`; followed by the escaped tail when
truthy.  Tags are written verbatim (opaque names, no namespace maps). -/
def serializeElem : Element → String
  | .mk t a x cs tl =>
      "<" ++ t ++ serializeAttribs a ++
      (if strTruthy x || !cs.isEmpty then
        ">" ++ (if strTruthy x then escape_cdata (optText x) else "") ++
          serializeList cs ++ "</" ++ t ++ ">"
      else " />") ++
      (if strTruthy tl then escape_cdata (optText tl) else "")

def serializeList : List Element → String
  | [] => ""
  | c :: cs => serializeElem c ++ serializeList cs

end

/-- Python `ET.tostring(element, encoding='utf-8')`: the serialized element
(for the utf-8 encoding no XML declaration is emitted). -/
def tostring (e : Element) : String :=
  serializeElem e

/-- Byte length of Python's `ET.tostring(element, encoding='utf-8')`. -/
def tostringLen (e : Element) : Nat :=
  utf8Length (tostring e)

/-- Mirror of `XMLSplitter.estimate_element_size`: length in bytes of the
serialized subtree plus `4` bytes for every node reported by `element.iter()`
(the variable `num_children` in the source counts `len(list(element.iter()))`,
i.e. the node itself and all descendants). -/
def XMLSplitter.estimate_element_size (element : Element) : Nat :=
  let base_size := tostringLen element
  let num_children := element.iterAll.length
  let indent_overhead := num_children * 4
  base_size + indent_overhead

/-- Tag-name-suffix convention: a direct child is a record when its tag ends in
the record marker `DAT` (Python `child.tag.endswith('DAT')`). -/
def isDAT (e : Element) : Bool :=
  strEndsWith e.tag "DAT"

/-- Mirror of `XMLSplitter.create_base_structure`: a fresh element with the
root's tag and attributes holding exactly the root's non-record children (the
wrapper, e.g. FEC and FIN), in original order; no text or tail of its own. -/
def XMLSplitter.create_base_structure (root : Element) : Element :=
  .mk root.tag root.attrib none (root.children.filter fun child => !isDAT child) none

/-- The ordered record children of a document root (Python
`[elem for elem in root if elem.tag.endswith('DAT')]`). -/
def datElements (root : Element) : List Element :=
  root.children.filter fun elem => isDAT elem

/-- Number of non-record (wrapper) children of the root. -/
def wrapperCount (root : Element) : Nat :=
  (root.children.filter fun child => !isDAT child).length

/-- Record sequence of an output partition: its children whose tag ends in the
record marker. -/
def recordsOf (part : Element) : List Element :=
  part.children.filter fun e => isDAT e

/-- Fixed header overhead constant of `XMLSplitter.split`
(`header_overhead = 100`). -/
def header_overhead : Nat := 100

/-- Loop state of `XMLSplitter.split`: parts emitted so far, the open
partition root, and the accumulated estimated size. -/
abbrev SplitState := List Element × Element × Nat

/-- One iteration of the loop body of `XMLSplitter.split`: when adding the
next record would exceed the maximum size and the open partition has more than
two children, the open partition is emitted and a fresh base structure is
opened; in every case the record is then appended and its estimated size is
accumulated. -/
def XMLSplitter.splitStep (base : Element) (max_size_bytes : Nat)
    (st : SplitState) (dat_element : Element) : SplitState :=
  let element_size := XMLSplitter.estimate_element_size dat_element
  let st' :=
    if st.2.2 + element_size + header_overhead > max_size_bytes ∧
        st.2.1.children.length > 2 then
      (st.1 ++ [st.2.1], base, XMLSplitter.estimate_element_size base)
    else st
  (st'.1, st'.2.1.append dat_element, st'.2.2 + element_size)

/-- Mirror of `XMLSplitter.split` (the partitioning logic; writing each emitted
partition to disk is modelled by collecting it in the output list): fold the
loop body over the record children, then emit the last open partition when it
has more than two children. -/
def XMLSplitter.split (root : Element) (max_size_bytes : Nat) : List Element :=
  let dats := datElements root
  let base := XMLSplitter.create_base_structure root
  let init : SplitState := ([], base, XMLSplitter.estimate_element_size base)
  let final := dats.foldl (XMLSplitter.splitStep base max_size_bytes) init
  if final.2.1.children.length > 2 then final.1 ++ [final.2.1] else final.1

/-- Python `element.find(tag)` for a plain tag path: the first direct child
with the given tag, or `None`. -/
def findChild (e : Element) (tag : String) : Option Element :=
  e.children.find? fun c => c.tag == tag

/-- Python `element.find('.//' + tag)`: the first descendant (document order,
excluding the element itself) with the given tag, or `None`. -/
def findDesc (e : Element) (tag : String) : Option Element :=
  (descAll e.children).find? fun c => c.tag == tag

/-- Python `element.findall('.//' + tag)`: all descendants with the given tag,
in document order. -/
def findallDesc (e : Element) (tag : String) : List Element :=
  (descAll e.children).filter fun c => c.tag == tag

/-- Schema field list `CatastroCSVExporter.FIELDS` (24 names). -/
def CatastroCSVExporter.FIELDS : List String :=
  ["TV", "NV", "PNP", "PLP", "BQ", "ES", "PT", "PU",
   "PCA_CAR_CDC1_CDC2",
   "PCA", "CAR", "CDC1", "CDC2",
   "CPO", "CPA", "KM", "ESC", "PLA", "PUE", "POL", "PAR",
   "SNP", "SLP", "KK"]

/-- Mirror of `CatastroCSVExporter.get_text`: empty string when the element is
`None`, when it has no direct child with the tag, or when that child's text is
`None` or empty; otherwise the child's text stripped of surrounding
whitespace. -/
def CatastroCSVExporter.get_text (element : Option Element) (tag : String) : String :=
  match element with
  | none => ""
  | some e =>
    match findChild e tag with
    | none => ""
    | some child =>
      match child.text with
      | none => ""
      | some t => if t ≠ "" then strTrim t else ""

/-- Mirror of `CatastroCSVExporter.extract_bie_data`, as the association list
of (field name, value) pairs in Python dict insertion order. -/
def CatastroCSVExporter.extract_bie_data (bie : Element) : List (String × String) :=
  let ibi := findChild bie "IBI"
  let rca := ibi.bind fun i => findChild i "RCA"
  let pca := CatastroCSVExporter.get_text rca "PCA"
  let car := CatastroCSVExporter.get_text rca "CAR"
  let cdc1 := CatastroCSVExporter.get_text rca "CDC1"
  let cdc2 := CatastroCSVExporter.get_text rca "CDC2"
  let dir_section := findDesc bie "DIR"
  let loint := findDesc bie "LOINT"
  let cpp := findDesc bie "CPP"
  let lec := findDesc bie "LEC"
  let elc := lec.bind fun l => findDesc l "ELC"
  let dt := findChild bie "DT"
  let lcons := dt.bind fun d => findDesc d "LCONS"
  [("PCA", pca), ("CAR", car), ("CDC1", cdc1), ("CDC2", cdc2),
   ("PCA_CAR_CDC1_CDC2", pca ++ car ++ cdc1 ++ cdc2),
   ("TV", CatastroCSVExporter.get_text dir_section "TV"),
   ("NV", CatastroCSVExporter.get_text dir_section "NV"),
   ("PNP", CatastroCSVExporter.get_text dir_section "PNP"),
   ("PLP", CatastroCSVExporter.get_text dir_section "PLP"),
   ("BQ", CatastroCSVExporter.get_text dir_section "BQ"),
   ("KM", CatastroCSVExporter.get_text dir_section "KM"),
   ("ES", CatastroCSVExporter.get_text loint "ES"),
   ("PT", CatastroCSVExporter.get_text loint "PT"),
   ("PU", CatastroCSVExporter.get_text loint "PU"),
   ("CPO", CatastroCSVExporter.get_text cpp "CPO"),
   ("CPA", CatastroCSVExporter.get_text cpp "CPA"),
   ("ESC", CatastroCSVExporter.get_text elc "ESC"),
   ("PLA", CatastroCSVExporter.get_text elc "PLA"),
   ("PUE", CatastroCSVExporter.get_text elc "PUE"),
   ("POL", CatastroCSVExporter.get_text dt "POL"),
   ("PAR", CatastroCSVExporter.get_text dt "PAR"),
   ("SNP", CatastroCSVExporter.get_text lcons "SNP"),
   ("SLP", CatastroCSVExporter.get_text lcons "SLP"),
   ("KK", CatastroCSVExporter.get_text (some bie) "KK")]

/-- Mirror of `CatastroCSVExporter.process_xml`: one flat record per `BIE`
descendant of the document root, in document order. -/
def CatastroCSVExporter.process_xml (root : Element) : List (List (String × String)) :=
  (findallDesc root "BIE").map CatastroCSVExporter.extract_bie_data

/-- Final path component, as in `pathlib.PurePath.name`. -/
def pathName (p : String) : String :=
  String.mk ((p.toList.reverse.takeWhile (fun c => c ≠ '/')).reverse)

/-- Python `pathlib.PurePath.suffix`: the extension of the final component,
including the leading dot; empty when the final component has no dot after its
first character or ends in a dot. -/
def pathSuffix (p : String) : String :=
  let cs := (pathName p).toList
  match cs.reverse.findIdx? (fun c => c == '.') with
  | none => ""
  | some k =>
    let i := cs.length - 1 - k
    if 0 < i ∧ i < cs.length - 1 then String.mk (cs.drop i) else ""

/-- What a provided input path can hold, as far as the exporter observes it:
bytes that parse as one XML document, a zip archive whose members are listed
with their own XML parse result (`none` for members that are not parsable
XML, e.g. a plain text file), or anything else. -/
inductive FileContent : Type where
  | xmlDoc (doc : Element)
  | zipArch (members : List (String × Option Element))
  | otherBytes

/-- One top-level input path given to `CatastroCSVExporter`. -/
structure InputFile : Type where
  path : String
  content : FileContent

/-- Result of `ET.parse` on a regular file's bytes: a document when the bytes
are XML, otherwise a parse failure (`none`). -/
def parseResult : FileContent → Option Element
  | .xmlDoc doc => some doc
  | _ => none

/-- Mirror of `CatastroCSVExporter.extract_zip` on an archive member list: the
members whose name, lowercased, ends in `.xml`, in archive order, each carried
as its eventual parse result (parsing happens later, in `process_xml`). -/
def CatastroCSVExporter.extract_zip (members : List (String × Option Element)) :
    List (Option Element) :=
  (members.filter fun m => strEndsWith (strToLower m.1) ".xml").map Prod.snd

/-- The input-collection loop of `CatastroCSVExporter.export`: a `.zip` path
(suffix lowercased) is expanded through `extract_zip` (raising when the bytes
are not a zip archive, as `zipfile.ZipFile` does), an `.xml` path contributes
itself, and every other path is skipped. -/
def CatastroCSVExporter.gatherInputs : List InputFile → Except String (List (Option Element))
  | [] => .ok []
  | f :: fs =>
    let sfx := strToLower (pathSuffix f.path)
    if sfx = ".zip" then
      match f.content with
      | .zipArch members =>
        match CatastroCSVExporter.gatherInputs fs with
        | .error e => .error e
        | .ok rest => .ok (CatastroCSVExporter.extract_zip members ++ rest)
      | _ => .error "BadZipFile"
    else if sfx = ".xml" then
      match CatastroCSVExporter.gatherInputs fs with
      | .error e => .error e
      | .ok rest => .ok (parseResult f.content :: rest)
    else CatastroCSVExporter.gatherInputs fs

/-- The processing loop of `CatastroCSVExporter.export`: each collected file is
parsed (raising when its bytes are not XML) and its records are extracted and
concatenated in order. -/
def CatastroCSVExporter.processAll : List (Option Element) →
    Except String (List (List (String × String)))
  | [] => .ok []
  | none :: _ => .error "ParseError"
  | some doc :: rest =>
    match CatastroCSVExporter.processAll rest with
    | .error e => .error e
    | .ok rows => .ok (CatastroCSVExporter.process_xml doc ++ rows)

/-- Mirror of `CatastroCSVExporter.export`: collect the XML documents among the
inputs (expanding `.zip` archives); when none are found return result code 1
with no output file written (`none`); otherwise process every document and
return code 0 with the written rows.  Fatal errors (bad archive, unparsable
document) propagate as exceptions. -/
def CatastroCSVExporter.export (inputs : List InputFile) :
    Except String (Int × Option (List (List (String × String)))) :=
  match CatastroCSVExporter.gatherInputs inputs with
  | .error e => .error e
  | .ok xml_files =>
    if xml_files.isEmpty then
      .ok (1, none)
    else
      match CatastroCSVExporter.processAll xml_files with
      | .error e => .error e
      | .ok all_data => .ok (0, some all_data)

/-- Dedup Key of a flat record: the cadastral-reference components concatenated
in a fixed order, i.e. the composite field PCA ++ CAR ++ CDC1 ++ CDC2. -/
def dedupKey (r : List (String × String)) : String :=
  ((r.lookup "PCA_CAR_CDC1_CDC2").getD "")

/-- Modelled from the spec: the Record Collector's legacy dedup mode
(`collect(records, schema, dedup_enabled)`, spec §4.4) is not in src/ — the
exporter there retains every record.  Per the spec, when `dedup_enabled` the
collector keeps a set of previously seen Dedup Key values and skips any record
whose key was already seen (first occurrence wins); otherwise every record is
retained. -/
def CatastroCSVExporter.collectGo (dedup_enabled : Bool) :
    List (List (String × String)) → List String → List (List (String × String))
  | [], _ => []
  | r :: rs, seen =>
    if dedup_enabled ∧ dedupKey r ∈ seen then
      CatastroCSVExporter.collectGo dedup_enabled rs seen
    else
      r :: CatastroCSVExporter.collectGo dedup_enabled rs (dedupKey r :: seen)

/-- Modelled from the spec: the Record Collector over a list of input
documents — extract all records of every document in order, then apply the
dedup policy with an initially empty seen-key set. -/
def CatastroCSVExporter.collect (docs : List Element) (dedup_enabled : Bool) :
    List (List (String × String)) :=
  CatastroCSVExporter.collectGo dedup_enabled
    (docs.flatMap CatastroCSVExporter.process_xml) []

instance {ε α : Type} [DecidableEq ε] [DecidableEq α] : DecidableEq (Except ε α) := fun a b =>
  match a, b with
  | .ok x, .ok y => decidable_of_iff (x = y) (by simp)
  | .error x, .error y => decidable_of_iff (x = y) (by simp)
  | .ok _, .error _ => isFalse (by simp)
  | .error _, .ok _ => isFalse (by simp)

/-! Concrete documents used by witnesses and counterexamples. -/

def exDAT : Element := .mk "DAT" [] (some "x") [] none

def exFEC : Element := .mk "FEC" [] (some "20240101") [] none

def exFIN : Element := .mk "FIN" [] (some "f") [] none

def exRoot : Element := .mk "ROOT" [] none [exFEC, exDAT, exDAT, exFIN] none

def exRoot1 : Element := .mk "ROOT" [] none [exFEC, exDAT, exFIN] none

def exRootNoWrap : Element := .mk "ROOT" [] none [exDAT] none

def exRootOneWrap : Element := .mk "ROOT" [] none [exFEC, exDAT] none

def exBIE : Element := .mk "BIE" [] none [] none

/-! Node-count lemmas for the size estimator. -/

mutual

theorem descElem_length : ∀ e : Element, (descElem e).length = countNodes e
  | .mk t a x cs tl => by
    simp [descElem, countNodes, descAll_length cs]
    omega

theorem descAll_length : ∀ cs : List Element, (descAll cs).length = countNodesList cs
  | [] => by simp [descAll, countNodesList]
  | c :: rest => by
    simp [descAll, countNodesList, descElem_length c, descAll_length rest]

end

/-- C7: for every element subtree, `estimate_element_size` equals the byte
length of the subtree's serialization (Python
`len(ET.tostring(element, encoding='utf-8'))`) plus 4 times the number of
nodes in the subtree including the node itself, and the value is a
non-negative integer. -/
theorem claim_C7_estimator_formula :
    ∀ e : Element,
      XMLSplitter.estimate_element_size e = tostringLen e + 4 * countNodes e ∧
      (0 : Int) ≤ (XMLSplitter.estimate_element_size e : Int) := by
  intro e
  refine ⟨?_, by exact_mod_cast Nat.zero_le _⟩
  cases e with
  | mk t a x cs tl =>
    simp [XMLSplitter.estimate_element_size, Element.iterAll, Element.children,
      countNodes, descAll_length]
    ring

/-- The field names of an extracted record, in Python dict insertion order:
the order in which `extract_bie_data` assigns them. -/
def extractKeyOrder : List String :=
  ["PCA", "CAR", "CDC1", "CDC2", "PCA_CAR_CDC1_CDC2",
   "TV", "NV", "PNP", "PLP", "BQ", "KM", "ES", "PT", "PU",
   "CPO", "CPA", "ESC", "PLA", "PUE", "POL", "PAR", "SNP", "SLP", "KK"]

theorem extract_bie_data_keys (bie : Element) :
    (CatastroCSVExporter.extract_bie_data bie).map Prod.fst = extractKeyOrder :=
  rfl

/-- C5 counterexample: on a concrete record subtree, the mapping returned by
`extract_bie_data` does not carry the schema's field names in schema order —
the insertion order starts with PCA while `FIELDS` starts with TV. -/
theorem claim_C5_cex :
    ¬ ((CatastroCSVExporter.extract_bie_data exBIE).map Prod.fst
        = CatastroCSVExporter.FIELDS) := by
  decide

/-- C5 (amended): for every record subtree, extraction returns a mapping
containing exactly the schema's 24 field names — a permutation of `FIELDS`,
none omitted, none extra, every value a string — regardless of which optional
substructures are present; the mapping's key order is the fixed extraction
order, and schema order is imposed only when the CSV writer emits rows. -/
theorem claim_C5_total_fields :
    ∀ bie : Element,
      ((CatastroCSVExporter.extract_bie_data bie).map Prod.fst).Perm
        CatastroCSVExporter.FIELDS ∧
      (CatastroCSVExporter.extract_bie_data bie).map Prod.fst = extractKeyOrder ∧
      (CatastroCSVExporter.extract_bie_data bie).length
        = CatastroCSVExporter.FIELDS.length := by
  intro bie
  refine ⟨?_, rfl, rfl⟩
  rw [extract_bie_data_keys]
  decide

/-! Splitter helper lemmas. -/

theorem create_base_children (root : Element) :
    (XMLSplitter.create_base_structure root).children
      = root.children.filter (fun c => !isDAT c) :=
  rfl

theorem create_base_no_dat (root : Element) :
    ∀ c ∈ (XMLSplitter.create_base_structure root).children, ¬ isDAT c = true := by
  intro c hc
  rw [create_base_children] at hc
  have h := (List.mem_filter.mp hc).2
  simp only [Bool.not_eq_eq_eq_not, Bool.not_true] at h
  simp [h]

theorem wrapperCount_eq_base_length (root : Element) :
    (XMLSplitter.create_base_structure root).children.length = wrapperCount root :=
  rfl

theorem Element.append_children (e c : Element) :
    (e.append c).children = e.children ++ [c] := by
  cases e
  rfl

theorem recordsOf_of_children_eq (root cur : Element) (ds : List Element)
    (hcur : cur.children = (XMLSplitter.create_base_structure root).children ++ ds)
    (hds : ∀ e ∈ ds, isDAT e = true) :
    recordsOf cur = ds := by
  unfold recordsOf
  rw [hcur, List.filter_append, List.filter_eq_nil_iff.mpr (create_base_no_dat root),
    List.filter_eq_self.mpr hds, List.nil_append]

/-- Shape of every partition emitted mid-loop: more than two children, and the
children are the wrapper copy followed by record elements only. -/
def goodPart (root : Element) (p : Element) : Prop :=
  2 < p.children.length ∧
  ∃ dsP, p.children = (XMLSplitter.create_base_structure root).children ++ dsP ∧
    ∀ e ∈ dsP, isDAT e = true

theorem splitLoop_inv (root : Element) (maxB : Nat) :
    ∀ rs : List Element, (∀ e ∈ rs, isDAT e = true) →
    ∀ (parts : List Element) (cur : Element) (size : Nat) (ds : List Element),
      cur.children = (XMLSplitter.create_base_structure root).children ++ ds →
      (∀ e ∈ ds, isDAT e = true) →
      (∀ p ∈ parts, goodPart root p) →
      ∃ ds' : List Element,
        (rs.foldl (XMLSplitter.splitStep (XMLSplitter.create_base_structure root) maxB)
            (parts, cur, size)).2.1.children
          = (XMLSplitter.create_base_structure root).children ++ ds' ∧
        (∀ e ∈ ds', isDAT e = true) ∧
        ((rs.foldl (XMLSplitter.splitStep (XMLSplitter.create_base_structure root) maxB)
            (parts, cur, size)).1.map recordsOf).flatten ++ ds'
          = (parts.map recordsOf).flatten ++ ds ++ rs ∧
        (∀ p ∈ (rs.foldl (XMLSplitter.splitStep (XMLSplitter.create_base_structure root) maxB)
            (parts, cur, size)).1, goodPart root p) := by
  intro rs
  induction rs with
  | nil =>
    intro _ parts cur size ds hcur hds hparts
    exact ⟨ds, hcur, hds, by simp, hparts⟩
  | cons r rs ih =>
    intro hrs parts cur size ds hcur hds hparts
    have hr : isDAT r = true := hrs r (by simp)
    have hrs' : ∀ e ∈ rs, isDAT e = true := fun e he => hrs e (by simp [he])
    rw [List.foldl_cons]
    by_cases hC : size + XMLSplitter.estimate_element_size r + header_overhead > maxB ∧
        cur.children.length > 2
    · have hstep : XMLSplitter.splitStep (XMLSplitter.create_base_structure root) maxB
          (parts, cur, size) r
          = (parts ++ [cur], (XMLSplitter.create_base_structure root).append r,
             XMLSplitter.estimate_element_size (XMLSplitter.create_base_structure root)
               + XMLSplitter.estimate_element_size r) := by
        simp [XMLSplitter.splitStep, hC]
      rw [hstep]
      obtain ⟨ds', h1, h2, h3, h4⟩ := ih hrs' (parts ++ [cur])
        ((XMLSplitter.create_base_structure root).append r)
        (XMLSplitter.estimate_element_size (XMLSplitter.create_base_structure root)
          + XMLSplitter.estimate_element_size r) [r]
        (by rw [Element.append_children])
        (by intro e he; simp at he; simp [he, hr])
        (by
          intro p hp
          rcases List.mem_append.mp hp with h | h
          · exact hparts p h
          · simp at h
            subst h
            exact ⟨hC.2, ds, hcur, hds⟩)
      refine ⟨ds', h1, h2, ?_, h4⟩
      rw [h3, List.map_append, List.flatten_append]
      simp [recordsOf_of_children_eq root cur ds hcur hds, List.append_assoc]
    · have hstep : XMLSplitter.splitStep (XMLSplitter.create_base_structure root) maxB
          (parts, cur, size) r
          = (parts, cur.append r, size + XMLSplitter.estimate_element_size r) := by
        simp [XMLSplitter.splitStep, hC]
      rw [hstep]
      obtain ⟨ds', h1, h2, h3, h4⟩ := ih hrs' parts (cur.append r)
        (size + XMLSplitter.estimate_element_size r) (ds ++ [r])
        (by rw [Element.append_children, hcur, List.append_assoc])
        (by
          intro e he
          rcases List.mem_append.mp he with h | h
          · exact hds e h
          · simp at h
            simp [h, hr])
        hparts
      refine ⟨ds', h1, h2, ?_, h4⟩
      rw [h3]
      simp [List.append_assoc]

theorem datElements_isDAT (root : Element) :
    ∀ e ∈ datElements root, isDAT e = true := by
  intro e he
  exact (List.mem_filter.mp he).2

theorem split_parts_shape (root : Element) (maxB : Nat) :
    ∀ p ∈ XMLSplitter.split root maxB, goodPart root p := by
  obtain ⟨ds', h1, h2, h3, h4⟩ := splitLoop_inv root maxB (datElements root)
    (datElements_isDAT root) [] (XMLSplitter.create_base_structure root)
    (XMLSplitter.estimate_element_size (XMLSplitter.create_base_structure root)) []
    (by simp) (by simp) (by simp)
  intro p hp
  unfold XMLSplitter.split at hp
  by_cases hlen : ((datElements root).foldl
      (XMLSplitter.splitStep (XMLSplitter.create_base_structure root) maxB)
      ([], XMLSplitter.create_base_structure root,
        XMLSplitter.estimate_element_size
          (XMLSplitter.create_base_structure root))).2.1.children.length > 2
  · simp only [hlen, if_true] at hp
    rcases List.mem_append.mp hp with h | h
    · exact h4 p h
    · simp at h
      subst h
      exact ⟨hlen, ds', h1, h2⟩
  · simp only [hlen, if_false] at hp
    exact h4 p hp

theorem split_records_concat (root : Element) (maxB : Nat)
    (hw : 2 ≤ wrapperCount root) :
    ((XMLSplitter.split root maxB).map recordsOf).flatten = datElements root := by
  obtain ⟨ds', h1, h2, h3, h4⟩ := splitLoop_inv root maxB (datElements root)
    (datElements_isDAT root) [] (XMLSplitter.create_base_structure root)
    (XMLSplitter.estimate_element_size (XMLSplitter.create_base_structure root)) []
    (by simp) (by simp) (by simp)
  simp only [List.map_nil, List.flatten_nil, List.nil_append] at h3
  unfold XMLSplitter.split
  by_cases hlen : ((datElements root).foldl
      (XMLSplitter.splitStep (XMLSplitter.create_base_structure root) maxB)
      ([], XMLSplitter.create_base_structure root,
        XMLSplitter.estimate_element_size
          (XMLSplitter.create_base_structure root))).2.1.children.length > 2
  · simp only [hlen, if_true]
    rw [List.map_append, List.flatten_append]
    simp [recordsOf_of_children_eq root _ ds' h1 h2, h3]
  · simp only [hlen, if_false]
    have hlen2 : (XMLSplitter.create_base_structure root).children.length + ds'.length ≤ 2 := by
      rw [h1] at hlen
      simp at hlen
      omega
    rw [wrapperCount_eq_base_length] at hlen2
    have hds0 : ds'.length = 0 := by omega
    have : ds' = [] := List.length_eq_zero.mp hds0
    subst this
    simpa using h3

/-- C1 counterexample: a parsable document whose root has one record child and
no wrapper children — the final guard `len(current_root) > 2` never holds, so
`split` emits no partition and the record is lost: the concatenation of the
partitions' records is empty while the source has one record. -/
theorem claim_C1_cex :
    ¬ (((XMLSplitter.split exRootNoWrap 460800).map recordsOf).flatten
        = datElements exRootNoWrap) := by
  decide

/-- C1 (amended): for every parsable input document whose root has at least
two non-record (wrapper) children, concatenating the record sequences of the
partitions produced by `split` (in partition order, then intra-partition
order) yields exactly the original sequence of record children of the source
root — same count, same order, no record duplicated, omitted or reordered. -/
theorem claim_C1_partition_completeness (root : Element) (maxB : Nat)
    (hw : 2 ≤ wrapperCount root) :
    ((XMLSplitter.split root maxB).map recordsOf).flatten = datElements root :=
  split_records_concat root maxB hw

theorem claim_C1_partition_completeness_witness :
    2 ≤ wrapperCount exRoot ∧
    ((XMLSplitter.split exRoot 460800).map recordsOf).flatten = datElements exRoot :=
  ⟨by decide, claim_C1_partition_completeness exRoot 460800 (by decide)⟩

/-- C2: for a document with the two mandatory wrapper children, the loop step
of `split` seals the open partition and opens a new one exactly when the next
record's estimated size, added to the accumulated size plus the fixed header
overhead constant, would exceed `max_bytes` AND the partition already holds at
least one record; otherwise the record is force-added.  The new accumulated
size never includes the header overhead constant (it enters only the
comparison), and every emitted partition contains at least one record. -/
theorem claim_C2_step_rule (root : Element) (maxB : Nat)
    (hw : wrapperCount root = 2) :
    (∀ (parts : List Element) (cur : Element) (size : Nat) (ds : List Element) (e : Element),
      cur.children = (XMLSplitter.create_base_structure root).children ++ ds →
      (∀ x ∈ ds, isDAT x = true) →
      size = XMLSplitter.estimate_element_size (XMLSplitter.create_base_structure root)
        + (ds.map XMLSplitter.estimate_element_size).sum →
      XMLSplitter.splitStep (XMLSplitter.create_base_structure root) maxB (parts, cur, size) e
        = if XMLSplitter.estimate_element_size (XMLSplitter.create_base_structure root)
              + (ds.map XMLSplitter.estimate_element_size).sum
              + XMLSplitter.estimate_element_size e + header_overhead > maxB ∧ ds ≠ [] then
            (parts ++ [cur], (XMLSplitter.create_base_structure root).append e,
              XMLSplitter.estimate_element_size (XMLSplitter.create_base_structure root)
                + XMLSplitter.estimate_element_size e)
          else
            (parts, cur.append e,
              XMLSplitter.estimate_element_size (XMLSplitter.create_base_structure root)
                + ((ds ++ [e]).map XMLSplitter.estimate_element_size).sum)) ∧
    (∀ p ∈ XMLSplitter.split root maxB, 1 ≤ (recordsOf p).length) := by
  constructor
  · intro parts cur size ds e hcur hds hsize
    have hlen : cur.children.length = 2 + ds.length := by
      rw [hcur, List.length_append, wrapperCount_eq_base_length, hw]
    have hnil : (2 + ds.length > 2) ↔ ds ≠ [] := by
      rw [← List.length_pos_iff_ne_nil]
      omega
    by_cases h : size + XMLSplitter.estimate_element_size e + header_overhead > maxB ∧
        cur.children.length > 2
    · have h' : XMLSplitter.estimate_element_size (XMLSplitter.create_base_structure root)
          + (ds.map XMLSplitter.estimate_element_size).sum
          + XMLSplitter.estimate_element_size e + header_overhead > maxB ∧ ds ≠ [] := by
        obtain ⟨ha, hb⟩ := h
        rw [hsize] at ha
        rw [hlen] at hb
        exact ⟨by omega, hnil.mp hb⟩
      rw [if_pos h']
      have hstep : XMLSplitter.splitStep (XMLSplitter.create_base_structure root) maxB
          (parts, cur, size) e
          = (parts ++ [cur], (XMLSplitter.create_base_structure root).append e,
             XMLSplitter.estimate_element_size (XMLSplitter.create_base_structure root)
               + XMLSplitter.estimate_element_size e) := by
        simp [XMLSplitter.splitStep, h]
      rw [hstep]
    · have h' : ¬ (XMLSplitter.estimate_element_size (XMLSplitter.create_base_structure root)
          + (ds.map XMLSplitter.estimate_element_size).sum
          + XMLSplitter.estimate_element_size e + header_overhead > maxB ∧ ds ≠ []) := by
        intro hh
        apply h
        refine ⟨by rw [hsize]; omega, ?_⟩
        rw [hlen]
        exact hnil.mpr hh.2
      rw [if_neg h']
      have hstep : XMLSplitter.splitStep (XMLSplitter.create_base_structure root) maxB
          (parts, cur, size) e
          = (parts, cur.append e, size + XMLSplitter.estimate_element_size e) := by
        simp [XMLSplitter.splitStep, h]
      rw [hstep, hsize]
      simp [List.sum_append, Nat.add_assoc]
  · intro p hp
    obtain ⟨hlen, dsP, hch, hdsP⟩ := split_parts_shape root maxB p hp
    rw [recordsOf_of_children_eq root p dsP hch hdsP]
    have : p.children.length = 2 + dsP.length := by
      rw [hch, List.length_append, wrapperCount_eq_base_length, hw]
    omega

theorem claim_C2_step_rule_witness :
    wrapperCount exRoot1 = 2 ∧
    ∀ p ∈ XMLSplitter.split exRoot1 1000, 1 ≤ (recordsOf p).length :=
  ⟨by decide, (claim_C2_step_rule exRoot1 1000 (by decide)).2⟩

theorem countP_mem_zero (r : Element) (L : List (List Element))
    (h : (L.map (List.count r)).sum = 0) :
    L.countP (fun s => decide (r ∈ s)) = 0 := by
  induction L with
  | nil => rfl
  | cons s L ih =>
    rw [List.map_cons, List.sum_cons] at h
    have h1 : s.count r = 0 := by omega
    have h2 : (L.map (List.count r)).sum = 0 := by omega
    have hrs : r ∉ s := List.count_eq_zero.mp h1
    rw [List.countP_cons]
    simp [hrs, ih h2]

theorem countP_mem_one (r : Element) (L : List (List Element))
    (h : (L.map (List.count r)).sum = 1) :
    L.countP (fun s => decide (r ∈ s)) = 1 := by
  induction L with
  | nil => simp at h
  | cons s L ih =>
    rw [List.map_cons, List.sum_cons] at h
    rw [List.countP_cons]
    by_cases hc : s.count r = 0
    · have h2 : (L.map (List.count r)).sum = 1 := by omega
      have hrs : r ∉ s := List.count_eq_zero.mp hc
      simp [hrs, ih h2]
    · have h2 : (L.map (List.count r)).sum = 0 := by omega
      have hrs : r ∈ s := by
        have hpos : 0 < s.count r := by omega
        exact List.count_pos_iff.mp hpos
      simp [hrs, countP_mem_zero r L h2]

/-- C4 counterexample: a parsable document whose root has a single wrapper
child followed by one record whose estimated size alone exceeds `max_bytes`
(here 0).  The seal guard `len(current_root) > 2` can never fire before the
append and the final guard requires more than two children, which fails at
two — so the oversized record is dropped: it appears in zero output
partitions, refuting the unrestricted claim. -/
theorem claim_C4_cex :
    0 < XMLSplitter.estimate_element_size exDAT ∧
    (datElements exRootOneWrap).count exDAT = 1 ∧
    XMLSplitter.split exRootOneWrap 0 = [] ∧
    ¬ ((XMLSplitter.split exRootOneWrap 0).countP
        (fun p => decide (exDAT ∈ recordsOf p)) = 1) := by
  decide

/-- C4 (amended): for documents whose root has at least two non-record
(wrapper) children, a record occurring once among the source's record
children whose own estimated size already exceeds `max_bytes` is never
dropped or the cause of an error — it still occurs exactly once in the
concatenated output records and appears in exactly one output partition.
With fewer wrapper children the code can silently drop a trailing oversized
record, as the counterexample shows. -/
theorem claim_C4_oversized_tolerance (root : Element) (maxB : Nat) (r : Element)
    (hw : 2 ≤ wrapperCount root)
    (hmem : (datElements root).count r = 1)
    (_hbig : maxB < XMLSplitter.estimate_element_size r) :
    (((XMLSplitter.split root maxB).map recordsOf).flatten).count r = 1 ∧
    (XMLSplitter.split root maxB).countP (fun p => decide (r ∈ recordsOf p)) = 1 := by
  have hconcat := split_records_concat root maxB hw
  have hcnt : (((XMLSplitter.split root maxB).map recordsOf).flatten).count r = 1 := by
    rw [hconcat]
    exact hmem
  refine ⟨hcnt, ?_⟩
  have hsum : (((XMLSplitter.split root maxB).map recordsOf).map (List.count r)).sum = 1 := by
    rw [← List.count_flatten]
    exact hcnt
  have hmap := countP_mem_one r ((XMLSplitter.split root maxB).map recordsOf) hsum
  rw [List.countP_map] at hmap
  exact hmap

theorem claim_C4_oversized_tolerance_witness :
    (2 ≤ wrapperCount exRoot1 ∧ (datElements exRoot1).count exDAT = 1 ∧
      0 < XMLSplitter.estimate_element_size exDAT) ∧
    (((XMLSplitter.split exRoot1 0).map recordsOf).flatten).count exDAT = 1 ∧
    (XMLSplitter.split exRoot1 0).countP (fun p => decide (exDAT ∈ recordsOf p)) = 1 :=
  ⟨⟨by decide, by decide, by decide⟩,
    claim_C4_oversized_tolerance exRoot1 0 exDAT (by decide) (by decide) (by decide)⟩

/-- C6: for every record subtree with no DIR descendant at all, extraction
still succeeds: the address-anchored fields TV, NV, PNP, PLP, BQ and KM are
all the empty string, the record still carries all 24 fields (it is not
dropped), and in general `get_text` resolves a missing anchor, a missing
child, or a text-less child to the empty string, trimming surrounding
whitespace when text exists. -/
theorem claim_C6_missing_dir (bie : Element)
    (h : ∀ d ∈ descAll bie.children, ¬ d.tag = "DIR") :
    (CatastroCSVExporter.extract_bie_data bie).lookup "TV" = some "" ∧
    (CatastroCSVExporter.extract_bie_data bie).lookup "NV" = some "" ∧
    (CatastroCSVExporter.extract_bie_data bie).lookup "PNP" = some "" ∧
    (CatastroCSVExporter.extract_bie_data bie).lookup "PLP" = some "" ∧
    (CatastroCSVExporter.extract_bie_data bie).lookup "BQ" = some "" ∧
    (CatastroCSVExporter.extract_bie_data bie).lookup "KM" = some "" ∧
    (CatastroCSVExporter.extract_bie_data bie).length
      = CatastroCSVExporter.FIELDS.length ∧
    (∀ tag, CatastroCSVExporter.get_text none tag = "") ∧
    (∀ e tag, findChild e tag = none →
      CatastroCSVExporter.get_text (some e) tag = "") ∧
    (∀ e tag c, findChild e tag = some c → (c.text = none ∨ c.text = some "") →
      CatastroCSVExporter.get_text (some e) tag = "") ∧
    (∀ e tag c t, findChild e tag = some c → c.text = some t → t ≠ "" →
      CatastroCSVExporter.get_text (some e) tag = strTrim t) := by
  have hDir : findDesc bie "DIR" = none := by
    unfold findDesc
    apply List.find?_eq_none.mpr
    intro d hd
    simpa using h d hd
  refine ⟨?_, ?_, ?_, ?_, ?_, ?_, rfl, ?_, ?_, ?_, ?_⟩
  · simp only [CatastroCSVExporter.extract_bie_data, hDir]
    rfl
  · simp only [CatastroCSVExporter.extract_bie_data, hDir]
    rfl
  · simp only [CatastroCSVExporter.extract_bie_data, hDir]
    rfl
  · simp only [CatastroCSVExporter.extract_bie_data, hDir]
    rfl
  · simp only [CatastroCSVExporter.extract_bie_data, hDir]
    rfl
  · simp only [CatastroCSVExporter.extract_bie_data, hDir]
    rfl
  · intro tag
    rfl
  · intro e tag hnone
    simp [CatastroCSVExporter.get_text, hnone]
  · intro e tag c hsome htext
    rcases htext with h1 | h1 <;> simp [CatastroCSVExporter.get_text, hsome, h1]
  · intro e tag c t hsome htext hne
    simp [CatastroCSVExporter.get_text, hsome, htext, hne]

theorem claim_C6_missing_dir_witness :
    (∀ d ∈ descAll exBIE.children, ¬ d.tag = "DIR") ∧
    (CatastroCSVExporter.extract_bie_data exBIE).lookup "TV" = some "" :=
  ⟨by decide, (claim_C6_missing_dir exBIE (by decide)).1⟩

/-- Seen-key set after the dedup collector has consumed a record stream. -/
def dedupSeenAfter : List (List (String × String)) → List String → List String
  | [], seen => seen
  | r :: rs, seen =>
    dedupSeenAfter rs (if dedupKey r ∈ seen then seen else dedupKey r :: seen)

theorem collectGo_true_append (rs ts : List (List (String × String))) :
    ∀ seen, CatastroCSVExporter.collectGo true (rs ++ ts) seen
      = CatastroCSVExporter.collectGo true rs seen
        ++ CatastroCSVExporter.collectGo true ts (dedupSeenAfter rs seen) := by
  induction rs with
  | nil => intro seen; rfl
  | cons r rs ih =>
    intro seen
    by_cases hk : dedupKey r ∈ seen
    · simp [CatastroCSVExporter.collectGo, dedupSeenAfter, hk, ih]
    · simp [CatastroCSVExporter.collectGo, dedupSeenAfter, hk, ih]

theorem dedupSeenAfter_mono (rs : List (List (String × String))) :
    ∀ seen k, k ∈ seen → k ∈ dedupSeenAfter rs seen := by
  induction rs with
  | nil => intro seen k hk; exact hk
  | cons r rs ih =>
    intro seen k hk
    by_cases h : dedupKey r ∈ seen
    · simpa [dedupSeenAfter, h] using ih _ k hk
    · simp only [dedupSeenAfter, if_neg h]
      exact ih _ k (by simp [hk])

theorem dedupSeenAfter_mem (rs : List (List (String × String))) :
    ∀ seen r, r ∈ rs → dedupKey r ∈ dedupSeenAfter rs seen := by
  induction rs with
  | nil => intro seen r hr; simp at hr
  | cons a rs ih =>
    intro seen r hr
    rcases List.mem_cons.mp hr with h | h
    · subst h
      by_cases hk : dedupKey r ∈ seen
      · simpa [dedupSeenAfter, hk] using dedupSeenAfter_mono rs _ _ hk
      · simp only [dedupSeenAfter, if_neg hk]
        exact dedupSeenAfter_mono rs _ _ (by simp)
    · by_cases hk : dedupKey a ∈ seen <;>
        simpa [dedupSeenAfter, hk] using ih _ r h

theorem collectGo_true_all_seen (rs : List (List (String × String))) :
    ∀ seen, (∀ r ∈ rs, dedupKey r ∈ seen) →
      CatastroCSVExporter.collectGo true rs seen = [] := by
  induction rs with
  | nil => intro seen _; rfl
  | cons r rs ih =>
    intro seen hall
    have hk : dedupKey r ∈ seen := hall r (by simp)
    simp only [CatastroCSVExporter.collectGo, true_and, if_pos hk]
    exact ih seen (fun x hx => hall x (by simp [hx]))

theorem collectGo_true_nodup (rs : List (List (String × String))) :
    ∀ seen, ((CatastroCSVExporter.collectGo true rs seen).map dedupKey).Nodup ∧
      ∀ k ∈ (CatastroCSVExporter.collectGo true rs seen).map dedupKey, k ∉ seen := by
  induction rs with
  | nil => intro seen; simp [CatastroCSVExporter.collectGo]
  | cons r rs ih =>
    intro seen
    by_cases hk : dedupKey r ∈ seen
    · simpa [CatastroCSVExporter.collectGo, hk] using ih seen
    · obtain ⟨hnd, hout⟩ := ih (dedupKey r :: seen)
      simp only [CatastroCSVExporter.collectGo, true_and, if_neg hk, List.map_cons]
      constructor
      · refine List.nodup_cons.mpr ⟨?_, hnd⟩
        intro hmem
        exact (hout _ hmem) (by simp)
      · intro k hkmem
        rcases List.mem_cons.mp hkmem with h | h
        · subst h
          exact hk
        · intro hcontra
          exact (hout k h) (by simp [hcontra])

/-- C3: running the record collector with `dedup_enabled=true` over the input
set concatenated with itself yields the same output sequence as running it
once, and no dedup key appears twice in the output (first occurrence wins).
spec-modelled: the dedup-enabled collector is absent from src/ and is
modelled from spec §4.4. -/
theorem claim_C3_dedup_idempotence :
    ∀ docs : List Element,
      CatastroCSVExporter.collect (docs ++ docs) true
        = CatastroCSVExporter.collect docs true ∧
      ((CatastroCSVExporter.collect docs true).map dedupKey).Nodup := by
  intro docs
  unfold CatastroCSVExporter.collect
  rw [List.flatMap_append, collectGo_true_append]
  have hskip : CatastroCSVExporter.collectGo true
      (docs.flatMap CatastroCSVExporter.process_xml)
      (dedupSeenAfter (docs.flatMap CatastroCSVExporter.process_xml) []) = [] :=
    collectGo_true_all_seen _ _
      (fun r hr => dedupSeenAfter_mem _ [] r hr)
  rw [hskip, List.append_nil]
  exact ⟨rfl, (collectGo_true_nodup _ []).1⟩


/-- C8: exporting from a zip archive whose members are a.xml, b.xml and
readme.txt produces exactly the same result as exporting from a.xml and b.xml
directly — the `.xml`-named members (case-insensitive) become input documents
in order, and the non-XML member contributes nothing, whatever its content. -/
theorem claim_C8_archive_transparency :
    ∀ (A B : Element) (c : Option Element),
      CatastroCSVExporter.export
        [⟨"data.zip", .zipArch [("a.xml", some A), ("b.xml", some B), ("readme.txt", c)]⟩]
        = CatastroCSVExporter.export [⟨"a.xml", .xmlDoc A⟩, ⟨"b.xml", .xmlDoc B⟩] := by
  intro A B c
  rfl

/-- C9: the export operation returns result code 1 with no output file
written, raising nothing, exactly when no XML documents are found among the
inputs after archive expansion; whenever it returns normally (no fatal error)
with at least one document found, the code is 0 and the output file is
written. -/
theorem claim_C9_no_input_result (inputs : List InputFile) :
    (CatastroCSVExporter.export inputs = .ok (1, none) ↔
      CatastroCSVExporter.gatherInputs inputs = .ok []) ∧
    (∀ code rows, CatastroCSVExporter.export inputs = .ok (code, rows) →
      (code = 1 ∧ rows = none) ∨ (code = 0 ∧ rows ≠ none)) := by
  unfold CatastroCSVExporter.export
  cases hg : CatastroCSVExporter.gatherInputs inputs with
  | error e => simp [hg]
  | ok l =>
    cases l with
    | nil =>
      refine ⟨by simp, ?_⟩
      intro code rows h
      simp only [List.isEmpty_nil, if_true] at h
      have h1 : (1 : Int) = code ∧ (none : Option (List (List (String × String)))) = rows := by
        have h' := h
        simp at h'
        exact h'
      exact Or.inl ⟨h1.1.symm, h1.2.symm⟩
    | cons x xs =>
      cases hp : CatastroCSVExporter.processAll (x :: xs) with
      | error e => simp [hp]
      | ok d =>
        refine ⟨by simp [hp], ?_⟩
        intro code rows h
        simp only [List.isEmpty_cons, if_false, hp] at h
        simp at h
        exact Or.inr ⟨h.1.symm, by rw [← h.2]; simp⟩

theorem claim_C9_no_input_result_witness :
    (CatastroCSVExporter.export [] = .ok (1, none) ↔
      CatastroCSVExporter.gatherInputs [] = .ok []) ∧
    (∀ code rows, CatastroCSVExporter.export [] = .ok (code, rows) →
      (code = 1 ∧ rows = none) ∨ (code = 0 ∧ rows ≠ none)) :=
  claim_C9_no_input_result []

theorem gatherInputs_skip (f : InputFile)
    (h1 : strToLower (pathSuffix f.path) ≠ ".zip")
    (h2 : strToLower (pathSuffix f.path) ≠ ".xml") :
    ∀ pre post, CatastroCSVExporter.gatherInputs (pre ++ f :: post)
      = CatastroCSVExporter.gatherInputs (pre ++ post) := by
  intro pre
  induction pre with
  | nil =>
    intro post
    simp only [List.nil_append]
    show CatastroCSVExporter.gatherInputs (f :: post)
      = CatastroCSVExporter.gatherInputs post
    simp [CatastroCSVExporter.gatherInputs, h1, h2]
  | cons a pre ih =>
    intro post
    simp only [List.cons_append]
    unfold CatastroCSVExporter.gatherInputs
    rw [ih post]

/-- C10: any top-level input path whose lowercased filename suffix is neither
`.xml` nor `.zip` is silently ignored by the export operation — whatever its
content, it is never opened or expanded, contributes nothing to the result,
and raises nothing; removing it from the input list leaves the export result
unchanged. -/
theorem claim_C10_non_xml_non_zip_ignored (f : InputFile) (pre post : List InputFile)
    (h1 : strToLower (pathSuffix f.path) ≠ ".xml")
    (h2 : strToLower (pathSuffix f.path) ≠ ".zip") :
    CatastroCSVExporter.export (pre ++ f :: post)
      = CatastroCSVExporter.export (pre ++ post) := by
  unfold CatastroCSVExporter.export
  rw [gatherInputs_skip f h2 h1 pre post]

theorem claim_C10_non_xml_non_zip_ignored_witness :
    (strToLower (pathSuffix "readme.txt") ≠ ".xml" ∧
      strToLower (pathSuffix "readme.txt") ≠ ".zip") ∧
    CatastroCSVExporter.export [⟨"readme.txt", .otherBytes⟩]
      = CatastroCSVExporter.export [] :=
  ⟨⟨by decide, by decide⟩,
    claim_C10_non_xml_non_zip_ignored ⟨"readme.txt", .otherBytes⟩ [] []
      (by decide) (by decide)⟩
